import Mathlib

/-!
Verification of the cache-aside computation core of the admin-statistics API.

The development shallowly embeds:
* the Go time formatting used for cache-key derivation
  (time.Time.Format(time.RFC3339) over proleptic-Gregorian civil time),
* the in-process cache (internal/repository/cache.go),
* the remote cache wrapper (RedisCache),
* the computation service (service.TransactionService) with its
  defensive type-reconstruction switches, and
* the percentile computation of repository.TransactionRepository.

Machine integers do not overflow in any relevant range, so Go int64/float64
are modelled as Int/ℚ; float64 arithmetic in the percentile formula is exact
for the stated properties, and is modelled with exact rationals.
-/

namespace AdminStats


/-! ## Civil calendar, modelling Go time.Format date decomposition

Go renders a time.Time in the proleptic Gregorian calendar of its location.
We model instants as seconds since the Unix epoch plus a fixed zone offset.
Days are shifted by 865565 (= 719468 + 146097) so that shifted day 0 is
March 1 of year -400, putting every RFC3339-formattable date (year 0..9999)
in Nat range. The decomposition below is the standard era/century/quadrennium
layering of the Gregorian calendar. -/

/-- Year-of-era (0..399) from day-of-era (0..146096). -/
def yoeOfDoe (doe : Nat) : Nat :=
  let c := min (doe / 36524) 3
  let r1 := doe - 36524 * c
  let q := r1 / 1461
  let r2 := r1 - 1461 * q
  let a := min (r2 / 365) 3
  100 * c + 4 * q + a

/-- Day-of-year (0..365, counted from March 1) from day-of-era. -/
def doyOfDoe (doe : Nat) : Nat :=
  doe - (365 * yoeOfDoe doe + yoeOfDoe doe / 4 - yoeOfDoe doe / 100)

/-- March-based month index (0..11) from day-of-year. -/
def mpOfDoy (doy : Nat) : Nat := (5 * doy + 2) / 153

/-- Day-of-month (1..31) from day-of-year. -/
def dayOfDoy (doy : Nat) : Nat := doy - (153 * mpOfDoy doy + 2) / 5 + 1

/-- Shifted day number to civil (year+400, month 1..12, day 1..31). -/
def days2civil (n : Nat) : Nat × Nat × Nat :=
  let doe := n % 146097
  let yoe := yoeOfDoe doe
  let doy := doyOfDoe doe
  let mp := mpOfDoy doy
  let m := if mp < 10 then mp + 3 else mp - 9
  let d := dayOfDoy doy
  ((n / 146097) * 400 + yoe + (if m ≤ 2 then 1 else 0), m, d)

/-- Civil (year+400, month, day) to shifted day number; inverse of days2civil. -/
def civil2days (y m d : Nat) : Nat :=
  let y' := y - (if m ≤ 2 then 1 else 0)
  let era := y' / 400
  let yoe := y' % 400
  let doy := (153 * (if 2 < m then m - 3 else m + 9) + 2) / 5 + d - 1
  era * 146097 + yoe * 365 + yoe / 4 - yoe / 100 + doy

/-! ## Go time values and RFC3339 formatting

A Go time.Time carries an instant and a location; for RFC3339 rendering only
the instant (seconds; the format has no sub-second digits) and the zone offset
matter. time.Parse(time.RFC3339, s) yields times whose year is 4 digits and
whose offset is a whole number of minutes within ±23:59; ValidGoTime captures
exactly the times this API receives through its HTTP boundary. -/

structure GoTime where
  sec : Int
  offset : Int
  deriving DecidableEq, Repr

/-- Seconds of local civil time, shifted into Nat range (shift = 865565 days). -/
def localShifted (t : GoTime) : Int := t.sec + t.offset + 865565 * 86400

/-- The times producible by RFC3339 parsing: local year in 0..9999 and a
whole-minute zone offset at most ±23:59. -/
def ValidGoTime (t : GoTime) : Prop :=
  146037 * 86400 ≤ localShifted t ∧ localShifted t < 3798096 * 86400 ∧
  (60 : Int) ∣ t.offset ∧ t.offset.natAbs ≤ 86340

/-- Two-digit zero-padded decimal rendering. -/
def pad2 (n : Nat) : List Char := [Nat.digitChar (n / 10 % 10), Nat.digitChar (n % 10)]

/-- Four-digit zero-padded decimal rendering. -/
def pad4 (n : Nat) : List Char :=
  [Nat.digitChar (n / 1000 % 10), Nat.digitChar (n / 100 % 10),
   Nat.digitChar (n / 10 % 10), Nat.digitChar (n % 10)]

/-- Models Go time.Time.Format(time.RFC3339): local civil date-time at second
precision followed by Z or a signed hh:mm zone offset. -/
def fmtRFC3339 (t : GoTime) : String :=
  let n := (localShifted t).toNat
  let c := days2civil (n / 86400)
  let tod := n % 86400
  let offMins := t.offset.natAbs / 60
  let offData : List Char :=
    if t.offset = 0 then ['Z']
    else (if t.offset < 0 then '-' else '+') :: (pad2 (offMins / 60) ++ ':' :: pad2 (offMins % 60))
  ⟨pad4 (c.1 - 400) ++ '-' :: (pad2 c.2.1 ++ '-' :: (pad2 c.2.2 ++ 'T' ::
    (pad2 (tod / 3600) ++ ':' :: (pad2 (tod % 3600 / 60) ++ ':' :: (pad2 (tod % 60) ++ offData)))))⟩

/-! ## Cache keys (service.go key derivation via fmt.Sprintf) -/

/-- Key of CalculateGGR: ggr:from:to with RFC3339-rendered bounds. -/
def ggrKey (fr til : GoTime) : String :=
  "ggr:" ++ fmtRFC3339 fr ++ ":" ++ fmtRFC3339 til

/-- Key of CalculateDailyWagerVolume. -/
def dailyWagerKey (fr til : GoTime) : String :=
  "daily_wager:" ++ fmtRFC3339 fr ++ ":" ++ fmtRFC3339 til

/-- Key of CalculateUserWagerPercentile. -/
def userPercentileKey (userID : String) (fr til : GoTime) : String :=
  "percentile:" ++ userID ++ ":" ++ fmtRFC3339 fr ++ ":" ++ fmtRFC3339 til

/-- The rendered zone suffix of a time. -/
def offChars (t : GoTime) : List Char :=
  if t.offset = 0 then ['Z']
  else (if t.offset < 0 then '-' else '+') ::
    (pad2 (t.offset.natAbs / 60 / 60) ++ ':' :: pad2 (t.offset.natAbs / 60 % 60))

/-! ## Cache-key dissection

RFC3339 renderings are rigid: they end in Z (length 20) or in a digit
(length 25), and never contain a colon in those trailing positions, so the
colon-separated key layout percentile:user:from:to decomposes uniquely even
for adversarial user ids containing colons. -/

/-- Shape of a rendering, seen from its right end. -/
def RevShape (l : List Char) : Prop :=
  (l.reverse.head? = some 'Z' ∧ l.length = 20) ∨
  (∃ k, k < 10 ∧ l.reverse.head? = some (Nat.digitChar k) ∧ l.length = 25)

/-! ## Dynamic values

A decoded cache value is a Go interface value; the service's type switches
distinguish exactly these runtime shapes. -/

inductive GoVal where
  | vFloat (x : ℚ)
  | vInt (n : Int)
  | vStr (s : String)
  | vMap (m : List (String × GoVal))
  | vSliceMaps (l : List (Option (List (String × GoVal))))
  | vSlice (l : List GoVal)

/-- A decoded generic map (Go map string-to-interface). -/
abbrev RowMap := List (String × GoVal)

/-- An element of the list results: a generic map or Go's nil map (none). -/
abbrev GoMapV := Option RowMap

/-! ## In-process cache (internal/repository/cache.go) -/

/-- cacheItem of cache.go. -/
structure CacheItem where
  value : GoVal
  expiration : Int

/-- The items map of MemoryCache. -/
def CacheState := String → Option CacheItem

/-- MemoryCache.Get: a missing key gives (nil, false); an entry whose
expiration lies strictly in the past (time.Now().After(expiration)) is
treated as missing without being removed. -/
def MemoryCache.Get (st : CacheState) (now : Int) (key : String) : Option GoVal × Bool :=
  match st key with
  | none => (none, false)
  | some item => if now > item.expiration then (none, false) else (some item.value, true)

/-- MemoryCache.Set: stores the value, expiring at now + ttl. -/
def MemoryCache.Set (st : CacheState) (now : Int) (key : String) (v : GoVal)
    (ttl : Int) : CacheState :=
  fun k => if k = key then some ⟨v, now + ttl⟩ else st k

/-- MemoryCache.Delete. -/
def MemoryCache.Delete (st : CacheState) (key : String) : CacheState :=
  fun k => if k = key then none else st k

/-- One wake-up of the background cleanup goroutine at time now: removes
every expired entry. -/
def MemoryCache.cleanup (st : CacheState) (now : Int) : CacheState :=
  fun k =>
    match st k with
    | some item => if now > item.expiration then none else some item
    | none => none

/-! ## Defensive reconstruction (the type switches of service.go) -/

/-- Go map indexing, first match wins (keys of a decoded JSON object are
unique). -/
def mapLookup : RowMap → String → Option GoVal
  | [], _ => none
  | (k, v) :: rest, key => if k = key then some v else mapLookup rest key

def digitsToNat (cs : List Char) : Nat :=
  cs.foldl (fun acc c => acc * 10 + (c.toNat - '0'.toNat)) 0

/-- Models strconv.ParseFloat on plain decimal literals (optional sign, digit
run, optional fractional part), with exact rational arithmetic in place of
IEEE rounding; the cached numerals relevant here are short decimals. -/
def parseFloat64 (s : String) : Option ℚ :=
  let step : List Char → Option ℚ := fun cs =>
    let ip := cs.takeWhile Char.isDigit
    let rest := cs.dropWhile Char.isDigit
    match rest with
    | [] => if ip.isEmpty then none else some (digitsToNat ip : ℚ)
    | '.' :: frac =>
      if frac.all Char.isDigit && !(ip.isEmpty && frac.isEmpty) then
        some ((digitsToNat ip : ℚ) + (digitsToNat frac : ℚ) / (10 ^ frac.length))
      else none
    | _ => none
  match s.data with
  | '+' :: cs => step cs
  | '-' :: cs => (step cs).map Neg.neg
  | cs => step cs

/-- The cache-hit type switch of CalculateGGR and CalculateDailyWagerVolume:
the expected slice type is returned as is; a generic slice is converted
element-wise, a non-map element leaving the zero-valued nil map in its slot;
any other shape falls through to the repository. -/
def reconstructMapsList : GoVal → Option (List GoMapV)
  | .vSliceMaps l => some l
  | .vSlice data => some (data.map fun item =>
      match item with
      | .vMap m => some m
      | _ => none)
  | _ => none

/-- The cache-hit type switch of CalculateUserWagerPercentile: float64 as is,
int widened, a string parsed with strconv.ParseFloat, a generic map unwrapped
at key value when it holds a float64; anything else (including an
unparseable string or a wrongly-typed map entry) falls through to the
repository. -/
def reconstructFloat : GoVal → Option ℚ
  | .vFloat x => some x
  | .vInt n => some (n : ℚ)
  | .vStr s => parseFloat64 s
  | .vMap m =>
    match mapLookup m "value" with
    | some (.vFloat x) => some x
    | _ => none
  | _ => none

/-! ## The computation service (service.TransactionService) -/

/-- Observable outcome of one service call: the returned value or error, the
cache state it leaves behind, and how often the repository was invoked. -/
structure OpOutcome (α : Type) where
  result : Except String α
  cacheAfter : CacheState
  repoCalls : Nat

/-- 5 * time.Minute, in seconds. -/
def ttl5m : Int := 300

/-- Get plus reconstruction for the list operations; none means miss or
failed reconstruction, either of which sends the service to the repository. -/
def cachedMapsList (st : CacheState) (now : Int) (key : String) : Option (List GoMapV) :=
  match MemoryCache.Get st now key with
  | (some v, true) => reconstructMapsList v
  | _ => none

/-- Get plus reconstruction for the percentile operation. -/
def cachedFloat (st : CacheState) (now : Int) (key : String) : Option ℚ :=
  match MemoryCache.Get st now key with
  | (some v, true) => reconstructFloat v
  | _ => none

/-- TransactionService.CalculateGGR: cache-aside around the repository's GGR
aggregation (the repository is the parameter repo). -/
def TransactionService.CalculateGGR
    (repo : GoTime → GoTime → Except String (List RowMap))
    (st : CacheState) (now : Int) (fr til : GoTime) : OpOutcome (List GoMapV) :=
  let cacheKey := ggrKey fr til
  match cachedMapsList st now cacheKey with
  | some data => ⟨.ok data, st, 0⟩
  | none =>
    match repo fr til with
    | .error e => ⟨.error e, st, 1⟩
    | .ok results =>
      let response : List GoMapV := results.map (fun r => some r)
      ⟨.ok response, MemoryCache.Set st now cacheKey (.vSliceMaps response) ttl5m, 1⟩

/-- TransactionService.CalculateDailyWagerVolume: identical shape with its own
key namespace. -/
def TransactionService.CalculateDailyWagerVolume
    (repo : GoTime → GoTime → Except String (List RowMap))
    (st : CacheState) (now : Int) (fr til : GoTime) : OpOutcome (List GoMapV) :=
  let cacheKey := dailyWagerKey fr til
  match cachedMapsList st now cacheKey with
  | some data => ⟨.ok data, st, 0⟩
  | none =>
    match repo fr til with
    | .error e => ⟨.error e, st, 1⟩
    | .ok results =>
      let response : List GoMapV := results.map (fun r => some r)
      ⟨.ok response, MemoryCache.Set st now cacheKey (.vSliceMaps response) ttl5m, 1⟩

/-- TransactionService.CalculateUserWagerPercentile. -/
def TransactionService.CalculateUserWagerPercentile
    (repo : String → GoTime → GoTime → Except String ℚ)
    (st : CacheState) (now : Int) (userID : String) (fr til : GoTime) : OpOutcome ℚ :=
  let cacheKey := userPercentileKey userID fr til
  match cachedFloat st now cacheKey with
  | some v => ⟨.ok v, st, 0⟩
  | none =>
    match repo userID fr til with
    | .error e => ⟨.error e, st, 1⟩
    | .ok percentile =>
      ⟨.ok percentile, MemoryCache.Set st now cacheKey (.vFloat percentile) ttl5m, 1⟩

/-! ## The percentile aggregation (repository.TransactionRepository) -/

/-- model.Transaction: fields relevant to the aggregations. -/
structure Transaction where
  createdAt : Int
  userId : String
  type : String
  amount : ℚ
  currency : String
  usdAmount : ℚ

def TransactionTypeWager : String := "Wager"

/-- The match stage of both percentile pipelines: createdAt within the closed
range and type Wager. -/
def isWagerInRange (fr til : Int) (t : Transaction) : Bool :=
  decide (fr ≤ t.createdAt) && decide (t.createdAt ≤ til) &&
    decide (t.type = TransactionTypeWager)

/-- The group stage: one row per userId with the summed usdAmount. -/
def wagerTotals (txs : List Transaction) : List (String × ℚ) :=
  ((txs.map (fun t => t.userId)).dedup).map fun uid =>
    (uid, ((txs.filter fun t => decide (t.userId = uid)).map (fun t => t.usdAmount)).sum)

/-- The sort stage: totalWagerUSD descending (Mongo leaves tie order
unspecified; mergeSort fixes one). -/
def sortByTotalDesc (l : List (String × ℚ)) : List (String × ℚ) :=
  l.mergeSort (fun a b => decide (b.2 ≤ a.2))

/-- The rank scan: userRank starts at 0 and becomes i+1 at the first row
whose _id is userID (the loop breaks there), so it is the 1-based index of
the first match, 0 when absent. -/
def findUserRank (userID : String) : List (String × ℚ) → Nat
  | [] => 0
  | (u, _) :: rest =>
    if u = userID then 1
    else if findUserRank userID rest = 0 then 0 else findUserRank userID rest + 1

/-- percentile := 100.0 - float64(userRank-1) / float64(totalUsers) * 100.0
(int subtraction, so rank 0 would give -1; exact rationals model the float64
arithmetic). -/
def percentileOfRank (userRank totalUsers : Nat) : ℚ :=
  100 - ((userRank : ℚ) - 1) / (totalUsers : ℚ) * 100

/-- TransactionRepository.CalculateUserWagerPercentile over the transaction
collection: the user pipeline, the early 0 return for inactive users, the
all-users pipeline, and the rank scan. -/
def TransactionRepository.CalculateUserWagerPercentile
    (txs : List Transaction) (userID : String) (fr til : Int) : ℚ :=
  let userResults := wagerTotals (txs.filter fun t =>
    isWagerInRange fr til t && decide (t.userId = userID))
  if userResults.length = 0 then 0
  else
    let allUsersResults := sortByTotalDesc (wagerTotals (txs.filter (isWagerInRange fr til)))
    let totalUsers := allUsersResults.length
    if totalUsers = 0 then 0
    else percentileOfRank (findUserRank userID allUsersResults) totalUsers

/-! ## The remote cache (RedisCache) -/

/-- The backend as the Go code observes it: a lookup where absence,
connectivity failure and timeout all surface as a client error, which Get
maps to a miss. -/
structure RedisBackend where
  lookup : String → Option String

/-- The JSON codec boundary; marshal and unmarshal may fail. -/
structure JsonCodec where
  marshal : GoVal → Option String
  unmarshal : String → Option GoVal

/-- RedisCache.Get: any client error or undecodable payload yields
(nil, false); there is no error channel in the signature. -/
def RedisCache.Get (codec : JsonCodec) (backend : RedisBackend) (key : String) :
    Option GoVal × Bool :=
  match backend.lookup key with
  | none => (none, false)
  | some s =>
    match codec.unmarshal s with
    | none => (none, false)
    | some v => (some v, true)

/-- RedisCache.Set acting on the backend string store: a marshalling failure
returns without storing anything. -/
def RedisCache.Set (codec : JsonCodec) (store : String → Option String) (key : String)
    (v : GoVal) : String → Option String :=
  match codec.marshal v with
  | none => store
  | some data => fun k => if k = key then some data else store k

/-- Five subjects ranked descending by total wagered USD, as in the spec's
round-trip example. -/
def rankedFive : List (String × ℚ) :=
  [("u1", 100), ("u2", 80), ("u3", 50), ("u4", 50), ("u5", 10)]

/-! ## The deployed percentile system (service + repository + in-process cache) -/

/-- The percentile Aggregator as deployed: the repository computation over the
fixed transaction collection (range matching compares instants). -/
def pctOracle (txs : List Transaction) : String → GoTime → GoTime → Except String ℚ :=
  fun uid fr til =>
    .ok (TransactionRepository.CalculateUserWagerPercentile txs uid fr.sec til.sec)

/-- Cache states reachable in the deployed system: starting from the empty
cache, any interleaving of the three service operations (the list operations
under arbitrary aggregation outcomes, the percentile operation backed by the
repository and handler-validated time bounds), deletes, and sweep passes. -/
inductive Reach (txs : List Transaction) : CacheState → Prop
  | init : Reach txs (fun _ => none)
  | ggr (st : CacheState) (now : Int) (fr til : GoTime)
      (res : Except String (List RowMap)) (h : Reach txs st) :
      Reach txs (TransactionService.CalculateGGR (fun _ _ => res) st now fr til).cacheAfter
  | daily (st : CacheState) (now : Int) (fr til : GoTime)
      (res : Except String (List RowMap)) (h : Reach txs st) :
      Reach txs (TransactionService.CalculateDailyWagerVolume (fun _ _ => res)
        st now fr til).cacheAfter
  | pct (st : CacheState) (now : Int) (uid : String) (fr til : GoTime)
      (hfr : ValidGoTime fr) (htil : ValidGoTime til) (h : Reach txs st) :
      Reach txs (TransactionService.CalculateUserWagerPercentile (pctOracle txs)
        st now uid fr til).cacheAfter
  | del (st : CacheState) (k : String) (h : Reach txs st) :
      Reach txs (MemoryCache.Delete st k)
  | sweep (st : CacheState) (now : Int) (h : Reach txs st) :
      Reach txs (MemoryCache.cleanup st now)

/-- Invariant: every cache entry under a percentile key of handler-validated
parameters holds exactly the repository's float for those parameters. -/
def PctInv (txs : List Transaction) (st : CacheState) : Prop :=
  ∀ uid fr til, ValidGoTime fr → ValidGoTime til →
    ∀ item, st (userPercentileKey uid fr til) = some item →
      item.value = GoVal.vFloat
        (TransactionRepository.CalculateUserWagerPercentile txs uid fr.sec til.sec)

/-! ## Theorems -/

theorem yoe_facts (doe : Nat) (h : doe < 146097) :
    yoeOfDoe doe ≤ 399 ∧
    365 * yoeOfDoe doe + yoeOfDoe doe / 4 - yoeOfDoe doe / 100 ≤ doe ∧
    doyOfDoe doe ≤ 365 ∧
    365 * yoeOfDoe doe + yoeOfDoe doe / 4 - yoeOfDoe doe / 100 + doyOfDoe doe = doe := by
  unfold doyOfDoe yoeOfDoe
  simp only []
  set c := min (doe / 36524) 3 with hc
  have hc3 : c ≤ 3 := min_le_right _ _
  have hcl : 36524 * c ≤ doe := by
    rw [hc, Nat.min_def]; split_ifs <;> omega
  have hcu : doe - 36524 * c ≤ 36524 := by
    rw [hc, Nat.min_def]; split_ifs <;> omega
  set r1 := doe - 36524 * c with hr1
  set q := r1 / 1461 with hq
  have hq24 : q ≤ 24 := by omega
  have hql : 1461 * q ≤ r1 := by omega
  set r2 := r1 - 1461 * q with hr2
  have hr2u : r2 ≤ 1460 := by omega
  set a := min (r2 / 365) 3 with ha
  have ha3 : a ≤ 3 := min_le_right _ _
  have hal : 365 * a ≤ r2 := by
    rw [ha, Nat.min_def]; split_ifs <;> omega
  have hau : r2 - 365 * a ≤ 365 := by
    rw [ha, Nat.min_def]; split_ifs <;> omega
  have hdiv4 : (100 * c + 4 * q + a) / 4 = 25 * c + q := by omega
  have hdiv100 : (100 * c + 4 * q + a) / 100 = c := by omega
  rw [hdiv4, hdiv100]
  omega

theorem doy_facts (doy : Nat) (h : doy ≤ 365) :
    mpOfDoy doy ≤ 11 ∧ 1 ≤ dayOfDoy doy ∧ dayOfDoy doy ≤ 31 ∧
    (153 * mpOfDoy doy + 2) / 5 + dayOfDoy doy - 1 = doy := by
  unfold dayOfDoy mpOfDoy
  omega

/-- Round trip: civil2days inverts days2civil, hence days2civil is injective. -/
theorem civil_rt (n : Nat) :
    civil2days (days2civil n).1 (days2civil n).2.1 (days2civil n).2.2 = n := by
  obtain ⟨h1, h2, h3, h4⟩ := yoe_facts (n % 146097) (Nat.mod_lt _ (by norm_num))
  obtain ⟨g1, g2, g3, g4⟩ := doy_facts (doyOfDoe (n % 146097)) h3
  unfold days2civil civil2days
  simp only []
  have e1 : (n / 146097 * 400 + yoeOfDoe (n % 146097)) / 400 = n / 146097 := by omega
  have e2 : (n / 146097 * 400 + yoeOfDoe (n % 146097)) % 400 = yoeOfDoe (n % 146097) := by omega
  by_cases hmp : mpOfDoy (doyOfDoe (n % 146097)) < 10
  · simp only [if_pos hmp]
    rw [if_neg (by omega : ¬ (mpOfDoy (doyOfDoe (n % 146097)) + 3 ≤ 2))]
    rw [if_pos (by omega : 2 < mpOfDoy (doyOfDoe (n % 146097)) + 3)]
    simp only [Nat.add_zero, Nat.sub_zero, Nat.add_sub_cancel]
    rw [e1, e2, g4]
    omega
  · simp only [if_neg hmp]
    rw [if_pos (by omega : mpOfDoy (doyOfDoe (n % 146097)) - 9 ≤ 2)]
    rw [if_neg (by omega : ¬ 2 < mpOfDoy (doyOfDoe (n % 146097)) - 9)]
    simp only [Nat.add_sub_cancel]
    rw [(by omega : mpOfDoy (doyOfDoe (n % 146097)) - 9 + 9 = mpOfDoy (doyOfDoe (n % 146097)))]
    rw [e1, e2, g4]
    omega

/-- Component ranges of the civil decomposition: on shifted days 146037 ≤ n
< 3798096 (years 0..9999) the year+400 lies in 400..10399 and month/day are
in calendar range. -/
theorem civil_bounds (n : Nat) (hlo : 146037 ≤ n) (hhi : n < 3798096) :
    400 ≤ (days2civil n).1 ∧ (days2civil n).1 ≤ 10399 ∧
    1 ≤ (days2civil n).2.1 ∧ (days2civil n).2.1 ≤ 12 ∧
    1 ≤ (days2civil n).2.2 ∧ (days2civil n).2.2 ≤ 31 := by
  obtain ⟨h1, h2, h3, h4⟩ := yoe_facts (n % 146097) (Nat.mod_lt _ (by norm_num))
  obtain ⟨g1, g2, g3, g4⟩ := doy_facts (doyOfDoe (n % 146097)) h3
  have hmpd : mpOfDoy (doyOfDoe (n % 146097)) = (5 * doyOfDoe (n % 146097) + 2) / 153 := rfl
  have hera : n / 146097 ≤ 25 := by omega
  unfold days2civil
  simp only []
  by_cases hmp : mpOfDoy (doyOfDoe (n % 146097)) < 10
  · simp only [if_pos hmp]
    rw [if_neg (by omega : ¬ (mpOfDoy (doyOfDoe (n % 146097)) + 3 ≤ 2))]
    have h400 : 400 ≤ n / 146097 * 400 + yoeOfDoe (n % 146097) := by
      rcases (by omega : n / 146097 = 0 ∨ 1 ≤ n / 146097) with hb | hb
      · exfalso
        have hdoe : 146037 ≤ n % 146097 := by omega
        have hyoe : yoeOfDoe (n % 146097) = 399 := by omega
        have hdoy : 306 ≤ doyOfDoe (n % 146097) := by omega
        omega
      · omega
    have hup : n / 146097 * 400 + yoeOfDoe (n % 146097) ≤ 10398 := by
      rcases (by omega : n / 146097 ≤ 24 ∨ n / 146097 = 25) with hb | hb
      · omega
      · have hdoe : n % 146097 ≤ 145670 := by omega
        have hyoe : yoeOfDoe (n % 146097) ≤ 398 := by omega
        omega
    refine ⟨by omega, by omega, by omega, by omega, by omega, by omega⟩
  · simp only [if_neg hmp]
    rw [if_pos (by omega : mpOfDoy (doyOfDoe (n % 146097)) - 9 ≤ 2)]
    have h400 : 399 ≤ n / 146097 * 400 + yoeOfDoe (n % 146097) := by
      rcases (by omega : n / 146097 = 0 ∨ 1 ≤ n / 146097) with hb | hb
      · have hdoe : 146037 ≤ n % 146097 := by omega
        have hyoe : yoeOfDoe (n % 146097) = 399 := by omega
        omega
      · omega
    have hup : n / 146097 * 400 + yoeOfDoe (n % 146097) ≤ 10398 := by
      rcases (by omega : n / 146097 ≤ 24 ∨ n / 146097 = 25) with hb | hb
      · omega
      · have hdoe : n % 146097 ≤ 145670 := by omega
        have hyoe : yoeOfDoe (n % 146097) ≤ 398 := by omega
        omega
    refine ⟨by omega, by omega, by omega, by omega, by omega, by omega⟩

-- Cross-validation against the repository's own test fixtures:
-- time.Date(2023,1,1,0,0,0,0,UTC) = unix 1672531200; the service test expects
-- the key fragment 2023-01-01T00:00:00Z, and 2023-01-31 similarly.
example : fmtRFC3339 ⟨1672531200, 0⟩ = "2023-01-01T00:00:00Z" := by decide

example : fmtRFC3339 ⟨1675123200, 0⟩ = "2023-01-31T00:00:00Z" := by decide

example : fmtRFC3339 ⟨0, 0⟩ = "1970-01-01T00:00:00Z" := by decide

example : fmtRFC3339 ⟨0, 3600⟩ = "1970-01-01T01:00:00+01:00" := by decide

example : fmtRFC3339 ⟨0, -3600⟩ = "1969-12-31T23:00:00-01:00" := by decide

example : fmtRFC3339 ⟨951827696, 0⟩ = "2000-02-29T12:34:56Z" := by decide

example : ggrKey ⟨1672531200, 0⟩ ⟨1675123200, 0⟩ =
    "ggr:2023-01-01T00:00:00Z:2023-01-31T00:00:00Z" := by decide

/-! ## Injectivity of the RFC3339 rendering on parseable times -/

theorem digitChar_inj : ∀ a < 10, ∀ b < 10, Nat.digitChar a = Nat.digitChar b → a = b := by
  decide

theorem digitChar_ne_Z : ∀ a < 10, Nat.digitChar a ≠ 'Z' := by decide

theorem pad2_length (n : Nat) : (pad2 n).length = 2 := rfl

theorem pad4_length (n : Nat) : (pad4 n).length = 4 := rfl

theorem pad2_inj (a b : Nat) (ha : a < 100) (hb : b < 100) (h : pad2 a = pad2 b) : a = b := by
  unfold pad2 at h
  simp only [List.cons.injEq, and_true] at h
  obtain ⟨h1, h2⟩ := h
  have e1 := digitChar_inj _ (by omega) _ (by omega) h1
  have e2 := digitChar_inj _ (by omega) _ (by omega) h2
  omega

theorem pad4_inj (a b : Nat) (ha : a < 10000) (hb : b < 10000) (h : pad4 a = pad4 b) : a = b := by
  unfold pad4 at h
  simp only [List.cons.injEq, and_true] at h
  obtain ⟨h1, h2, h3, h4⟩ := h
  have e1 := digitChar_inj _ (by omega) _ (by omega) h1
  have e2 := digitChar_inj _ (by omega) _ (by omega) h2
  have e3 := digitChar_inj _ (by omega) _ (by omega) h3
  have e4 := digitChar_inj _ (by omega) _ (by omega) h4
  omega

theorem fmtRFC3339_data (t : GoTime) :
    (fmtRFC3339 t).data =
      pad4 ((days2civil ((localShifted t).toNat / 86400)).1 - 400) ++ '-' ::
      (pad2 (days2civil ((localShifted t).toNat / 86400)).2.1 ++ '-' ::
      (pad2 (days2civil ((localShifted t).toNat / 86400)).2.2 ++ 'T' ::
      (pad2 ((localShifted t).toNat % 86400 / 3600) ++ ':' ::
      (pad2 ((localShifted t).toNat % 86400 % 3600 / 60) ++ ':' ::
      (pad2 ((localShifted t).toNat % 86400 % 60) ++ offChars t))))) := rfl

theorem offChars_inj (t t' : GoTime) (ht : ValidGoTime t) (ht' : ValidGoTime t')
    (h : offChars t = offChars t') : t.offset = t'.offset := by
  obtain ⟨-, -, hdvd, habs⟩ := ht
  obtain ⟨-, -, hdvd', habs'⟩ := ht'
  unfold offChars at h
  by_cases h0 : t.offset = 0 <;> by_cases h0' : t'.offset = 0
  · omega
  · rw [if_pos h0, if_neg h0'] at h
    split_ifs at h <;> simp_all
  · rw [if_neg h0, if_pos h0'] at h
    split_ifs at h <;> simp_all
  · rw [if_neg h0, if_neg h0'] at h
    by_cases hs : t.offset < 0 <;> by_cases hs' : t'.offset < 0
    · rw [if_pos hs, if_pos hs'] at h
      simp only [List.cons.injEq, true_and] at h
      obtain ⟨hh, hm⟩ := List.append_inj h (by rw [pad2_length, pad2_length])
      simp only [List.cons.injEq, true_and] at hm
      have e1 := pad2_inj _ _ (by omega) (by omega) hh
      have e2 := pad2_inj _ _ (by omega) (by omega) hm
      omega
    · rw [if_pos hs, if_neg hs'] at h
      simp only [List.cons.injEq] at h
      exact absurd h.1 (by decide)
    · rw [if_neg hs, if_pos hs'] at h
      simp only [List.cons.injEq] at h
      exact absurd h.1 (by decide)
    · rw [if_neg hs, if_neg hs'] at h
      simp only [List.cons.injEq, true_and] at h
      obtain ⟨hh, hm⟩ := List.append_inj h (by rw [pad2_length, pad2_length])
      simp only [List.cons.injEq, true_and] at hm
      have e1 := pad2_inj _ _ (by omega) (by omega) hh
      have e2 := pad2_inj _ _ (by omega) (by omega) hm
      omega

/-- On RFC3339-parseable times the rendering is injective: equal strings mean
equal instants and equal zone offsets. -/
theorem fmtRFC3339_inj (t t' : GoTime) (ht : ValidGoTime t) (ht' : ValidGoTime t')
    (h : fmtRFC3339 t = fmtRFC3339 t') : t = t' := by
  have hdata := congrArg String.data h
  rw [fmtRFC3339_data, fmtRFC3339_data] at hdata
  have hn : ((localShifted t).toNat : Int) = localShifted t :=
    Int.toNat_of_nonneg (by have := ht.1; omega)
  have hn' : ((localShifted t').toNat : Int) = localShifted t' :=
    Int.toNat_of_nonneg (by have := ht'.1; omega)
  have hdays : 146037 ≤ (localShifted t).toNat / 86400 ∧
      (localShifted t).toNat / 86400 < 3798096 := by
    have h1 := ht.1; have h2 := ht.2.1; omega
  have hdays' : 146037 ≤ (localShifted t').toNat / 86400 ∧
      (localShifted t').toNat / 86400 < 3798096 := by
    have h1 := ht'.1; have h2 := ht'.2.1; omega
  obtain ⟨cb1, cb2, cb3, cb4, cb5, cb6⟩ := civil_bounds _ hdays.1 hdays.2
  obtain ⟨cb1', cb2', cb3', cb4', cb5', cb6'⟩ := civil_bounds _ hdays'.1 hdays'.2
  obtain ⟨hY, hrest⟩ := List.append_inj hdata (by rw [pad4_length, pad4_length])
  simp only [List.cons.injEq, true_and] at hrest
  obtain ⟨hM, hrest⟩ := List.append_inj hrest (by rw [pad2_length, pad2_length])
  simp only [List.cons.injEq, true_and] at hrest
  obtain ⟨hD, hrest⟩ := List.append_inj hrest (by rw [pad2_length, pad2_length])
  simp only [List.cons.injEq, true_and] at hrest
  obtain ⟨hH, hrest⟩ := List.append_inj hrest (by rw [pad2_length, pad2_length])
  simp only [List.cons.injEq, true_and] at hrest
  obtain ⟨hMi, hrest⟩ := List.append_inj hrest (by rw [pad2_length, pad2_length])
  simp only [List.cons.injEq, true_and] at hrest
  obtain ⟨hS, hoff⟩ := List.append_inj hrest (by rw [pad2_length, pad2_length])
  have eoff : t.offset = t'.offset := offChars_inj t t' ht ht' hoff
  have eY := pad4_inj _ _ (by omega) (by omega) hY
  have eM := pad2_inj _ _ (by omega) (by omega) hM
  have eD := pad2_inj _ _ (by omega) (by omega) hD
  have eH := pad2_inj _ _ (by omega) (by omega) hH
  have eMi := pad2_inj _ _ (by omega) (by omega) hMi
  have eS := pad2_inj _ _ (by omega) (by omega) hS
  have ec : days2civil ((localShifted t).toNat / 86400) =
      days2civil ((localShifted t').toNat / 86400) := by
    have e1 : (days2civil ((localShifted t).toNat / 86400)).1 =
        (days2civil ((localShifted t').toNat / 86400)).1 := by omega
    have e2 : (days2civil ((localShifted t).toNat / 86400)).2.1 =
        (days2civil ((localShifted t').toNat / 86400)).2.1 := eM
    have e3 : (days2civil ((localShifted t).toNat / 86400)).2.2 =
        (days2civil ((localShifted t').toNat / 86400)).2.2 := eD
    exact Prod.ext e1 (Prod.ext e2 e3)
  have edays : (localShifted t).toNat / 86400 = (localShifted t').toNat / 86400 := by
    have r1 := civil_rt ((localShifted t).toNat / 86400)
    have r2 := civil_rt ((localShifted t').toNat / 86400)
    rw [ec] at r1
    omega
  have etod : (localShifted t).toNat % 86400 = (localShifted t').toNat % 86400 := by
    omega
  have elocal : localShifted t = localShifted t' := by omega
  have esec : t.sec = t'.sec := by
    unfold localShifted at elocal
    omega
  cases t; cases t'
  simp only [GoTime.mk.injEq]
  exact ⟨esec, eoff⟩

theorem fmt_rev_shape (t : GoTime) : RevShape (fmtRFC3339 t).data := by
  rw [RevShape, fmtRFC3339_data]
  unfold offChars
  by_cases h0 : t.offset = 0
  · left
    rw [if_pos h0]
    unfold pad2 pad4
    constructor
    · simp [List.reverse_append]
    · simp
  · right
    refine ⟨t.offset.natAbs / 60 % 60 % 10, by omega, ?_, ?_⟩
    · rw [if_neg h0]
      unfold pad2 pad4
      split_ifs <;> simp [List.reverse_append]
    · rw [if_neg h0]
      unfold pad2 pad4
      split_ifs <;> simp

theorem head_append_of_ne_nil (l r : List Char) (hl : l ≠ []) : (l ++ r).head? = l.head? := by
  cases l
  · exact absurd rfl hl
  · rfl

theorem revShape_append_inj (F F' R R' : List Char) (hF : RevShape F) (hF' : RevShape F')
    (h : F.reverse ++ R = F'.reverse ++ R') : F = F' ∧ R = R' := by
  have hne : F.reverse ≠ [] := by
    rcases hF with ⟨hh, hl⟩ | ⟨k, hk, hh, hl⟩ <;>
      exact fun hnil => by simp [hnil] at hh
  have hne' : F'.reverse ≠ [] := by
    rcases hF' with ⟨hh, hl⟩ | ⟨k, hk, hh, hl⟩ <;>
      exact fun hnil => by simp [hnil] at hh
  have hheads : F.reverse.head? = F'.reverse.head? := by
    rw [← head_append_of_ne_nil F.reverse R hne, ← head_append_of_ne_nil F'.reverse R' hne', h]
  rcases hF with ⟨hh, hl⟩ | ⟨k, hk, hh, hl⟩ <;>
    rcases hF' with ⟨hh', hl'⟩ | ⟨k', hk', hh', hl'⟩
  · have := List.append_inj h (by rw [List.length_reverse, List.length_reverse, hl, hl'])
    exact ⟨List.reverse_inj.mp this.1, this.2⟩
  · rw [hh, hh'] at hheads
    exact absurd (Option.some.inj hheads).symm (digitChar_ne_Z k' hk')
  · rw [hh, hh'] at hheads
    exact absurd (Option.some.inj hheads) (digitChar_ne_Z k hk)
  · have := List.append_inj h (by rw [List.length_reverse, List.length_reverse, hl, hl'])
    exact ⟨List.reverse_inj.mp this.1, this.2⟩

/-- Unique decomposition of user:from:to tails built from rigid renderings. -/
theorem suffix3_inj (u u' F F' T T' : List Char) (hF : RevShape F) (hF' : RevShape F')
    (hT : RevShape T) (hT' : RevShape T')
    (h : u ++ ':' :: (F ++ ':' :: T) = u' ++ ':' :: (F' ++ ':' :: T')) :
    u = u' ∧ F = F' ∧ T = T' := by
  have hrev := congrArg List.reverse h
  simp only [List.reverse_append, List.reverse_cons, List.append_assoc,
    List.singleton_append] at hrev
  obtain ⟨eT, hrest⟩ := revShape_append_inj T T' _ _ hT hT' hrev
  obtain ⟨-, hrest⟩ := List.cons.inj hrest
  obtain ⟨eF, hrest2⟩ := revShape_append_inj F F' _ _ hF hF' hrest
  obtain ⟨-, hrest2⟩ := List.cons.inj hrest2
  exact ⟨List.reverse_inj.mp hrest2, eF, eT⟩

/-- The percentile cache key determines the user id and both range bounds. -/
theorem userPercentileKey_inj (uid uid' : String) (fr fr' til til' : GoTime)
    (hfr : ValidGoTime fr) (hfr' : ValidGoTime fr')
    (htil : ValidGoTime til) (htil' : ValidGoTime til')
    (h : userPercentileKey uid fr til = userPercentileKey uid' fr' til') :
    uid = uid' ∧ fr = fr' ∧ til = til' := by
  have hdata := congrArg String.data h
  unfold userPercentileKey at hdata
  simp only [String.data_append, List.append_assoc, List.singleton_append] at hdata
  have hdata2 := List.append_cancel_left hdata
  obtain ⟨hu, hF, hT⟩ := suffix3_inj _ _ _ _ _ _ (fmt_rev_shape fr) (fmt_rev_shape fr')
    (fmt_rev_shape til) (fmt_rev_shape til') hdata2
  refine ⟨String.ext hu, ?_, ?_⟩
  · exact fmtRFC3339_inj fr fr' hfr hfr' (String.ext hF)
  · exact fmtRFC3339_inj til til' htil htil' (String.ext hT)

theorem pctKey_ne_ggrKey (uid : String) (fr til fr' til' : GoTime) :
    userPercentileKey uid fr til ≠ ggrKey fr' til' := by
  intro h
  have hdata := congrArg String.data h
  unfold userPercentileKey ggrKey at hdata
  simp only [String.data_append, List.append_assoc, List.cons_append,
    List.nil_append] at hdata
  exact absurd (List.cons.inj hdata).1 (by decide)

theorem pctKey_ne_dailyKey (uid : String) (fr til fr' til' : GoTime) :
    userPercentileKey uid fr til ≠ dailyWagerKey fr' til' := by
  intro h
  have hdata := congrArg String.data h
  unfold userPercentileKey dailyWagerKey at hdata
  simp only [String.data_append, List.append_assoc, List.cons_append,
    List.nil_append] at hdata
  exact absurd (List.cons.inj hdata).1 (by decide)

example : parseFloat64 "95.5" = some (191 / 2 : ℚ) := by
  have h1 : parseFloat64 "95.5" =
      some ((digitsToNat ['9', '5'] : ℚ) +
        (digitsToNat ['5'] : ℚ) / 10 ^ (['5'] : List Char).length) := rfl
  rw [h1, show digitsToNat ['9', '5'] = 95 from rfl, show digitsToNat ['5'] = 5 from rfl]
  norm_num

/-! ## Facts about the percentile aggregation -/

theorem wagerTotals_fst (txs : List Transaction) :
    (wagerTotals txs).map Prod.fst = (txs.map (fun t => t.userId)).dedup := by
  unfold wagerTotals
  rw [List.map_map]
  exact List.map_id' _

theorem mem_wagerTotals_fst (txs : List Transaction) (uid : String) :
    uid ∈ (wagerTotals txs).map Prod.fst ↔ ∃ t ∈ txs, t.userId = uid := by
  rw [wagerTotals_fst, List.mem_dedup, List.mem_map]

theorem findUserRank_eq_zero (uid : String) (l : List (String × ℚ)) :
    findUserRank uid l = 0 ↔ uid ∉ l.map Prod.fst := by
  induction l with
  | nil => simp [findUserRank]
  | cons hd tl ih =>
    obtain ⟨u, q⟩ := hd
    by_cases h : u = uid
    · simp [findUserRank, h]
    · by_cases h0 : findUserRank uid tl = 0
      · simp only [findUserRank, if_neg h, if_pos h0, List.map_cons, List.mem_cons]
        rw [ih] at h0
        constructor
        · intro _ hc
          rcases hc with hc | hc
          · exact h hc.symm
          · exact h0 hc
        · intro _
          trivial
      · simp only [findUserRank, if_neg h, if_neg h0, List.map_cons, List.mem_cons]
        rw [ih, not_not] at h0
        constructor
        · intro hc
          exact absurd hc (Nat.succ_ne_zero _)
        · intro hc
          exact absurd (Or.inr h0) hc

theorem findUserRank_mem_bounds (uid : String) (l : List (String × ℚ))
    (h : uid ∈ l.map Prod.fst) :
    1 ≤ findUserRank uid l ∧ findUserRank uid l ≤ l.length := by
  induction l with
  | nil => simp at h
  | cons hd tl ih =>
    obtain ⟨u, q⟩ := hd
    by_cases hu : u = uid
    · simp [findUserRank, hu]
    · have hmem : uid ∈ tl.map Prod.fst := by
        rw [List.map_cons] at h
        rcases List.mem_cons.mp h with hc | hc
        · exact absurd hc.symm hu
        · exact hc
      obtain ⟨ih1, ih2⟩ := ih hmem
      have h0 : findUserRank uid tl ≠ 0 := by omega
      simp only [findUserRank, if_neg hu, if_neg h0, List.length_cons]
      omega

/-- The scan returns r when the subject first appears at 1-based position r. -/
theorem findUserRank_first (uid : String) (l : List (String × ℚ)) (r : Nat) (q : ℚ)
    (hr : 1 ≤ r) (hget : l.get? (r - 1) = some (uid, q))
    (hpre : uid ∉ (l.take (r - 1)).map Prod.fst) :
    findUserRank uid l = r := by
  induction l generalizing r with
  | nil => simp at hget
  | cons hd tl ih =>
    obtain ⟨u, p⟩ := hd
    rcases Nat.eq_or_lt_of_le hr with h1 | h1
    · subst h1
      rw [show (1 : Nat) - 1 = 0 from rfl] at hget
      have h2 : (u, p) = (uid, q) := Option.some.inj hget
      have hu : u = uid := congrArg Prod.fst h2
      simp [findUserRank, hu]
    · have hu : u ≠ uid := by
        intro he
        apply hpre
        rw [show r - 1 = (r - 2) + 1 from by omega, List.take_succ_cons, List.map_cons]
        exact List.mem_cons.mpr (Or.inl he.symm)
      have htl : findUserRank uid tl = r - 1 := by
        apply ih (r - 1) (by omega)
        · rw [show r - 1 = (r - 2) + 1 from by omega, List.get?_cons_succ] at hget
          rw [show r - 1 - 1 = r - 2 from by omega]
          exact hget
        · intro hc
          apply hpre
          rw [show r - 1 = (r - 2) + 1 from by omega, List.take_succ_cons, List.map_cons]
          refine List.mem_cons.mpr (Or.inr ?_)
          rw [show r - 1 - 1 = r - 2 from by omega] at hc
          exact hc
      have h0 : findUserRank uid tl ≠ 0 := by omega
      simp only [findUserRank, if_neg hu, if_neg h0]
      omega

theorem percentileOfRank_bounds (r n : Nat) (h1 : 1 ≤ r) (h2 : r ≤ n) :
    0 < percentileOfRank r n ∧ percentileOfRank r n ≤ 100 := by
  unfold percentileOfRank
  have hn : (0 : ℚ) < n := by
    have : 1 ≤ n := le_trans h1 h2
    exact_mod_cast Nat.cast_pos.mpr (by omega)
  have hr1 : (1 : ℚ) ≤ (r : ℚ) := by exact_mod_cast h1
  have hrn : (r : ℚ) ≤ (n : ℚ) := by exact_mod_cast h2
  constructor
  · have hlt : ((r : ℚ) - 1) / n < 1 := by
      rw [div_lt_one hn]
      linarith
    nlinarith
  · have hge : 0 ≤ ((r : ℚ) - 1) / n := div_nonneg (by linarith) hn.le
    nlinarith

/-- When the subject has qualifying activity, the repository computation is
the rank-scan formula over the sorted all-users totals. -/
theorem repoPct_active_eq (txs : List Transaction) (uid : String) (fr til : Int)
    (hne : txs.filter (fun t => isWagerInRange fr til t && decide (t.userId = uid)) ≠ []) :
    TransactionRepository.CalculateUserWagerPercentile txs uid fr til =
      percentileOfRank
        (findUserRank uid (sortByTotalDesc (wagerTotals (txs.filter (isWagerInRange fr til)))))
        (sortByTotalDesc (wagerTotals (txs.filter (isWagerInRange fr til)))).length ∧
    1 ≤ findUserRank uid (sortByTotalDesc (wagerTotals (txs.filter (isWagerInRange fr til)))) ∧
    findUserRank uid (sortByTotalDesc (wagerTotals (txs.filter (isWagerInRange fr til)))) ≤
      (sortByTotalDesc (wagerTotals (txs.filter (isWagerInRange fr til)))).length := by
  obtain ⟨t0, ht0⟩ := List.exists_mem_of_ne_nil _ hne
  have ht0' := List.mem_filter.mp ht0
  have ht0q : isWagerInRange fr til t0 = true ∧ t0.userId = uid := by
    have h2 := ht0'.2
    simp only [Bool.and_eq_true, decide_eq_true_eq] at h2
    exact ⟨h2.1, h2.2⟩
  have huR : wagerTotals (txs.filter fun t =>
      isWagerInRange fr til t && decide (t.userId = uid)) ≠ [] := by
    intro hnil
    have hm : t0.userId ∈ (wagerTotals (txs.filter fun t =>
        isWagerInRange fr til t && decide (t.userId = uid))).map Prod.fst :=
      (mem_wagerTotals_fst _ _).mpr ⟨t0, ht0, rfl⟩
    rw [hnil] at hm
    simp at hm
  have hmemA : uid ∈ (sortByTotalDesc
      (wagerTotals (txs.filter (isWagerInRange fr til)))).map Prod.fst := by
    have hmem : uid ∈ (wagerTotals (txs.filter (isWagerInRange fr til))).map Prod.fst := by
      refine (mem_wagerTotals_fst _ _).mpr ⟨t0, ?_, ht0q.2⟩
      exact List.mem_filter.mpr ⟨ht0'.1, ht0q.1⟩
    have hperm : List.Perm (sortByTotalDesc (wagerTotals (txs.filter (isWagerInRange fr til))))
        (wagerTotals (txs.filter (isWagerInRange fr til))) := by
      unfold sortByTotalDesc
      exact List.mergeSort_perm _ _
    exact ((hperm.map Prod.fst).mem_iff).mpr hmem
  obtain ⟨hr1, hr2⟩ := findUserRank_mem_bounds uid _ hmemA
  refine ⟨?_, hr1, hr2⟩
  unfold TransactionRepository.CalculateUserWagerPercentile
  rw [if_neg (by simpa [List.length_eq_zero] using huR), if_neg (by omega)]

/-- The repository percentile is always in [0, 100], and is 0 exactly when the
subject has no qualifying wager in range. -/
theorem repoPct_spec (txs : List Transaction) (uid : String) (fr til : Int) :
    0 ≤ TransactionRepository.CalculateUserWagerPercentile txs uid fr til ∧
    TransactionRepository.CalculateUserWagerPercentile txs uid fr til ≤ 100 ∧
    (TransactionRepository.CalculateUserWagerPercentile txs uid fr til = 0 ↔
      txs.filter (fun t => isWagerInRange fr til t && decide (t.userId = uid)) = []) := by
  by_cases hF : txs.filter (fun t => isWagerInRange fr til t && decide (t.userId = uid)) = []
  · have hres : TransactionRepository.CalculateUserWagerPercentile txs uid fr til = 0 := by
      unfold TransactionRepository.CalculateUserWagerPercentile
      rw [hF]
      simp [wagerTotals]
    rw [hres]
    exact ⟨le_refl 0, by norm_num, by simp [hF]⟩
  · obtain ⟨hres, hr1, hr2⟩ := repoPct_active_eq txs uid fr til hF
    obtain ⟨hb1, hb2⟩ := percentileOfRank_bounds _ _ hr1 hr2
    rw [hres]
    refine ⟨hb1.le, hb2, ?_⟩
    constructor
    · intro h0
      rw [h0] at hb1
      exact absurd hb1 (lt_irrefl 0)
    · intro hc
      exact absurd hc hF

/-! ## Claims -/

/-- C2: the in-process cache never serves an expired entry: if the stored
entry for a key has an expiration earlier than the current time, Get returns
(nil, false), regardless of whether Delete or the background sweep has run
since the entry expired. -/
theorem C2_lazy_expiration (st : CacheState) (now : Int) (key : String) (item : CacheItem)
    (hst : st key = some item) (hexp : item.expiration < now) :
    MemoryCache.Get st now key = (none, false) := by
  unfold MemoryCache.Get
  rw [hst]
  show (if now > item.expiration then ((none : Option GoVal), false)
    else (some item.value, true)) = (none, false)
  rw [if_pos (by omega)]

theorem C2_lazy_expiration_witness :
    MemoryCache.Get (fun k => if k = "k" then some ⟨.vInt 1, 0⟩ else none) 5 "k" =
      (none, false) :=
  C2_lazy_expiration _ 5 "k" ⟨.vInt 1, 0⟩ (by simp) (by norm_num)

/-- Miss-then-error path, GGR: the repository error is returned as is and the
cache is untouched. -/
theorem ggr_error_eq (repo : GoTime → GoTime → Except String (List RowMap))
    (st : CacheState) (now : Int) (fr til : GoTime) (e : String)
    (herr : repo fr til = Except.error e)
    (hmiss : cachedMapsList st now (ggrKey fr til) = none) :
    TransactionService.CalculateGGR repo st now fr til = ⟨Except.error e, st, 1⟩ := by
  unfold TransactionService.CalculateGGR
  simp only []
  rw [hmiss, herr]

theorem daily_error_eq (repo : GoTime → GoTime → Except String (List RowMap))
    (st : CacheState) (now : Int) (fr til : GoTime) (e : String)
    (herr : repo fr til = Except.error e)
    (hmiss : cachedMapsList st now (dailyWagerKey fr til) = none) :
    TransactionService.CalculateDailyWagerVolume repo st now fr til =
      ⟨Except.error e, st, 1⟩ := by
  unfold TransactionService.CalculateDailyWagerVolume
  simp only []
  rw [hmiss, herr]

theorem pct_error_eq (repo : String → GoTime → GoTime → Except String ℚ)
    (st : CacheState) (now : Int) (uid : String) (fr til : GoTime) (e : String)
    (herr : repo uid fr til = Except.error e)
    (hmiss : cachedFloat st now (userPercentileKey uid fr til) = none) :
    TransactionService.CalculateUserWagerPercentile repo st now uid fr til =
      ⟨Except.error e, st, 1⟩ := by
  unfold TransactionService.CalculateUserWagerPercentile
  simp only []
  rw [hmiss, herr]

/-- C3: on every one of the three operations, an Aggregator error is returned
unwrapped as the operation's error, and the cache state is left untouched (no
Set happens); the hypotheses state that the cache lookup did not short-circuit
the call, which is when the repository is consulted at all. -/
theorem C3_error_passthrough :
    (∀ repo st now fr til e, repo fr til = Except.error e →
      cachedMapsList st now (ggrKey fr til) = none →
      TransactionService.CalculateGGR repo st now fr til = ⟨Except.error e, st, 1⟩) ∧
    (∀ repo st now fr til e, repo fr til = Except.error e →
      cachedMapsList st now (dailyWagerKey fr til) = none →
      TransactionService.CalculateDailyWagerVolume repo st now fr til =
        ⟨Except.error e, st, 1⟩) ∧
    (∀ repo st now uid fr til e, repo uid fr til = Except.error e →
      cachedFloat st now (userPercentileKey uid fr til) = none →
      TransactionService.CalculateUserWagerPercentile repo st now uid fr til =
        ⟨Except.error e, st, 1⟩) := by
  exact ⟨fun repo st now fr til e herr hmiss => ggr_error_eq repo st now fr til e herr hmiss,
    fun repo st now fr til e herr hmiss => daily_error_eq repo st now fr til e herr hmiss,
    fun repo st now uid fr til e herr hmiss => pct_error_eq repo st now uid fr til e herr hmiss⟩

theorem C3_error_passthrough_witness :
    TransactionService.CalculateGGR (fun _ _ => Except.error "db down") (fun _ => none) 0
        ⟨0, 0⟩ ⟨3600, 0⟩ = ⟨Except.error "db down", fun _ => none, 1⟩ ∧
    TransactionService.CalculateDailyWagerVolume (fun _ _ => Except.error "db down")
        (fun _ => none) 0 ⟨0, 0⟩ ⟨3600, 0⟩ = ⟨Except.error "db down", fun _ => none, 1⟩ ∧
    TransactionService.CalculateUserWagerPercentile (fun _ _ _ => Except.error "db down")
        (fun _ => none) 0 "u" ⟨0, 0⟩ ⟨3600, 0⟩ = ⟨Except.error "db down", fun _ => none, 1⟩ :=
  ⟨C3_error_passthrough.1 _ _ 0 _ _ _ rfl rfl,
   C3_error_passthrough.2.1 _ _ 0 _ _ _ rfl rfl,
   C3_error_passthrough.2.2 _ _ 0 "u" _ _ _ rfl rfl⟩

/-- C10: in-process cache algebra: Set then Get before expiration returns the
stored value; Get after Delete misses; Set on an existing key overwrites it
(last write wins, as a cache-state equality). -/
theorem C10_memory_cache_algebra (st : CacheState) (k : String) (v : GoVal)
    (ttl t1 t2 : Int) (_hpos : 0 < ttl) (hfresh : t2 < t1 + ttl) :
    MemoryCache.Get (MemoryCache.Set st t1 k v ttl) t2 k = (some v, true) ∧
    (∀ (st2 : CacheState) (now : Int),
      MemoryCache.Get (MemoryCache.Delete st2 k) now k = (none, false)) ∧
    (∀ v2 ttl2 t3, MemoryCache.Set (MemoryCache.Set st t1 k v ttl) t3 k v2 ttl2 =
      MemoryCache.Set st t3 k v2 ttl2) := by
  refine ⟨?_, ?_, ?_⟩
  · unfold MemoryCache.Get MemoryCache.Set
    rw [if_pos rfl]
    show (if t2 > t1 + ttl then ((none : Option GoVal), false) else (some v, true)) =
      (some v, true)
    rw [if_neg (by omega)]
  · intro st2 now
    unfold MemoryCache.Get MemoryCache.Delete
    rw [if_pos rfl]
  · intro v2 ttl2 t3
    funext k2
    unfold MemoryCache.Set
    by_cases hk : k2 = k
    · rw [if_pos hk, if_pos hk]
    · rw [if_neg hk, if_neg hk, if_neg hk]

theorem C10_memory_cache_algebra_witness :
    MemoryCache.Get (MemoryCache.Set (fun _ => none) 0 "k" (.vInt 7) 300) 299 "k" =
      (some (.vInt 7), true) :=
  (C10_memory_cache_algebra (fun _ => none) "k" (.vInt 7) 300 0 299 (by norm_num)
    (by norm_num)).1

/-- A Set immediately followed by a Get within the TTL hits with the stored
value. -/
theorem get_set_fresh (st : CacheState) (t1 t2 ttl : Int) (k : String) (v : GoVal)
    (h : t2 ≤ t1 + ttl) :
    MemoryCache.Get (MemoryCache.Set st t1 k v ttl) t2 k = (some v, true) := by
  unfold MemoryCache.Get MemoryCache.Set
  rw [if_pos rfl]
  show (if t2 > t1 + ttl then ((none : Option GoVal), false) else (some v, true)) =
    (some v, true)
  rw [if_neg (by omega)]

theorem cachedMapsList_set_hit (st : CacheState) (t1 t2 ttl : Int) (k : String)
    (l : List GoMapV) (h : t2 ≤ t1 + ttl) :
    cachedMapsList (MemoryCache.Set st t1 k (.vSliceMaps l) ttl) t2 k = some l := by
  unfold cachedMapsList
  rw [get_set_fresh st t1 t2 ttl k _ h]
  rfl

theorem cachedFloat_set_hit (st : CacheState) (t1 t2 ttl : Int) (k : String)
    (x : ℚ) (h : t2 ≤ t1 + ttl) :
    cachedFloat (MemoryCache.Set st t1 k (.vFloat x) ttl) t2 k = some x := by
  unfold cachedFloat
  rw [get_set_fresh st t1 t2 ttl k _ h]
  rfl

/-- Cache-hit short-circuit, GGR. -/
theorem ggr_hit_eq (repo : GoTime → GoTime → Except String (List RowMap))
    (st : CacheState) (now : Int) (fr til : GoTime) (data : List GoMapV)
    (hc : cachedMapsList st now (ggrKey fr til) = some data) :
    TransactionService.CalculateGGR repo st now fr til = ⟨.ok data, st, 0⟩ := by
  unfold TransactionService.CalculateGGR
  simp only []
  rw [hc]

/-- Cache-hit short-circuit, daily volume. -/
theorem daily_hit_eq (repo : GoTime → GoTime → Except String (List RowMap))
    (st : CacheState) (now : Int) (fr til : GoTime) (data : List GoMapV)
    (hc : cachedMapsList st now (dailyWagerKey fr til) = some data) :
    TransactionService.CalculateDailyWagerVolume repo st now fr til = ⟨.ok data, st, 0⟩ := by
  unfold TransactionService.CalculateDailyWagerVolume
  simp only []
  rw [hc]

/-- Cache-hit short-circuit, percentile. -/
theorem pct_hit_eq (repo : String → GoTime → GoTime → Except String ℚ)
    (st : CacheState) (now : Int) (uid : String) (fr til : GoTime) (x : ℚ)
    (hc : cachedFloat st now (userPercentileKey uid fr til) = some x) :
    TransactionService.CalculateUserWagerPercentile repo st now uid fr til =
      ⟨.ok x, st, 0⟩ := by
  unfold TransactionService.CalculateUserWagerPercentile
  simp only []
  rw [hc]

/-- Miss-path unfolding, GGR. -/
theorem ggr_miss_eq (repo : GoTime → GoTime → Except String (List RowMap))
    (st : CacheState) (now : Int) (fr til : GoTime) (results : List RowMap)
    (hc : cachedMapsList st now (ggrKey fr til) = none)
    (hr : repo fr til = .ok results) :
    TransactionService.CalculateGGR repo st now fr til =
      ⟨.ok (results.map (fun r => some r)),
       MemoryCache.Set st now (ggrKey fr til)
         (.vSliceMaps (results.map (fun r => some r))) ttl5m, 1⟩ := by
  unfold TransactionService.CalculateGGR
  simp only []
  rw [hc, hr]

theorem daily_miss_eq (repo : GoTime → GoTime → Except String (List RowMap))
    (st : CacheState) (now : Int) (fr til : GoTime) (results : List RowMap)
    (hc : cachedMapsList st now (dailyWagerKey fr til) = none)
    (hr : repo fr til = .ok results) :
    TransactionService.CalculateDailyWagerVolume repo st now fr til =
      ⟨.ok (results.map (fun r => some r)),
       MemoryCache.Set st now (dailyWagerKey fr til)
         (.vSliceMaps (results.map (fun r => some r))) ttl5m, 1⟩ := by
  unfold TransactionService.CalculateDailyWagerVolume
  simp only []
  rw [hc, hr]

theorem pct_miss_eq (repo : String → GoTime → GoTime → Except String ℚ)
    (st : CacheState) (now : Int) (uid : String) (fr til : GoTime) (p : ℚ)
    (hc : cachedFloat st now (userPercentileKey uid fr til) = none)
    (hr : repo uid fr til = .ok p) :
    TransactionService.CalculateUserWagerPercentile repo st now uid fr til =
      ⟨.ok p, MemoryCache.Set st now (userPercentileKey uid fr til) (.vFloat p) ttl5m, 1⟩ := by
  unfold TransactionService.CalculateUserWagerPercentile
  simp only []
  rw [hc, hr]

theorem ggr_calls_le_one (repo : GoTime → GoTime → Except String (List RowMap))
    (st : CacheState) (now : Int) (fr til : GoTime) :
    (TransactionService.CalculateGGR repo st now fr til).repoCalls ≤ 1 := by
  unfold TransactionService.CalculateGGR
  simp only []
  cases hc : cachedMapsList st now (ggrKey fr til) with
  | some data => simp
  | none =>
    cases hr : repo fr til with
    | error e => simp
    | ok results => simp

theorem daily_calls_le_one (repo : GoTime → GoTime → Except String (List RowMap))
    (st : CacheState) (now : Int) (fr til : GoTime) :
    (TransactionService.CalculateDailyWagerVolume repo st now fr til).repoCalls ≤ 1 := by
  unfold TransactionService.CalculateDailyWagerVolume
  simp only []
  cases hc : cachedMapsList st now (dailyWagerKey fr til) with
  | some data => simp
  | none =>
    cases hr : repo fr til with
    | error e => simp
    | ok results => simp

theorem pct_calls_le_one (repo : String → GoTime → GoTime → Except String ℚ)
    (st : CacheState) (now : Int) (uid : String) (fr til : GoTime) :
    (TransactionService.CalculateUserWagerPercentile repo st now uid fr til).repoCalls ≤ 1 := by
  unfold TransactionService.CalculateUserWagerPercentile
  simp only []
  cases hc : cachedFloat st now (userPercentileKey uid fr til) with
  | some x => simp
  | none =>
    cases hr : repo uid fr til with
    | error e => simp
    | ok p => simp

/-- C1: for each of the three operations, a cache hit that reconstructs
successfully returns the reconstructed value with zero Aggregator calls and an
unchanged cache; consequently two successive calls with the same parameters,
the second within the 5-minute TTL of the first successful one, invoke the
Aggregator at most once in total. -/
theorem C1_hit_short_circuit_and_single_call :
    (∀ repo st now fr til data, cachedMapsList st now (ggrKey fr til) = some data →
      TransactionService.CalculateGGR repo st now fr til = ⟨.ok data, st, 0⟩) ∧
    (∀ repo st now fr til data, cachedMapsList st now (dailyWagerKey fr til) = some data →
      TransactionService.CalculateDailyWagerVolume repo st now fr til = ⟨.ok data, st, 0⟩) ∧
    (∀ repo st now uid fr til x, cachedFloat st now (userPercentileKey uid fr til) = some x →
      TransactionService.CalculateUserWagerPercentile repo st now uid fr til =
        ⟨.ok x, st, 0⟩) ∧
    (∀ repo st t1 t2 fr til v,
      (TransactionService.CalculateGGR repo st t1 fr til).result = .ok v →
      t2 ≤ t1 + ttl5m →
      (TransactionService.CalculateGGR repo st t1 fr til).repoCalls +
        (TransactionService.CalculateGGR repo
          (TransactionService.CalculateGGR repo st t1 fr til).cacheAfter t2 fr
          til).repoCalls ≤ 1) ∧
    (∀ repo st t1 t2 fr til v,
      (TransactionService.CalculateDailyWagerVolume repo st t1 fr til).result = .ok v →
      t2 ≤ t1 + ttl5m →
      (TransactionService.CalculateDailyWagerVolume repo st t1 fr til).repoCalls +
        (TransactionService.CalculateDailyWagerVolume repo
          (TransactionService.CalculateDailyWagerVolume repo st t1 fr til).cacheAfter t2 fr
          til).repoCalls ≤ 1) ∧
    (∀ repo st t1 t2 uid fr til v,
      (TransactionService.CalculateUserWagerPercentile repo st t1 uid fr til).result = .ok v →
      t2 ≤ t1 + ttl5m →
      (TransactionService.CalculateUserWagerPercentile repo st t1 uid fr til).repoCalls +
        (TransactionService.CalculateUserWagerPercentile repo
          (TransactionService.CalculateUserWagerPercentile repo st t1 uid fr til).cacheAfter
          t2 uid fr til).repoCalls ≤ 1) := by
  refine ⟨ggr_hit_eq, daily_hit_eq, pct_hit_eq, ?_, ?_, ?_⟩
  · intro repo st t1 t2 fr til v hok hfresh
    cases hc : cachedMapsList st t1 (ggrKey fr til) with
    | some data =>
      rw [ggr_hit_eq repo st t1 fr til data hc]
      simpa using ggr_calls_le_one repo st t2 fr til
    | none =>
      cases hr : repo fr til with
      | error e =>
        rw [ggr_error_eq repo st t1 fr til e hr hc] at hok
        exact absurd hok (by simp)
      | ok results =>
        rw [ggr_miss_eq repo st t1 fr til results hc hr]
        have hhit := cachedMapsList_set_hit st t1 t2 ttl5m (ggrKey fr til)
          (results.map (fun r => some r)) hfresh
        rw [ggr_hit_eq repo _ t2 fr til _ hhit]
        simp
  · intro repo st t1 t2 fr til v hok hfresh
    cases hc : cachedMapsList st t1 (dailyWagerKey fr til) with
    | some data =>
      rw [daily_hit_eq repo st t1 fr til data hc]
      simpa using daily_calls_le_one repo st t2 fr til
    | none =>
      cases hr : repo fr til with
      | error e =>
        rw [daily_error_eq repo st t1 fr til e hr hc] at hok
        exact absurd hok (by simp)
      | ok results =>
        rw [daily_miss_eq repo st t1 fr til results hc hr]
        have hhit := cachedMapsList_set_hit st t1 t2 ttl5m (dailyWagerKey fr til)
          (results.map (fun r => some r)) hfresh
        rw [daily_hit_eq repo _ t2 fr til _ hhit]
        simp
  · intro repo st t1 t2 uid fr til v hok hfresh
    cases hc : cachedFloat st t1 (userPercentileKey uid fr til) with
    | some x =>
      rw [pct_hit_eq repo st t1 uid fr til x hc]
      simpa using pct_calls_le_one repo st t2 uid fr til
    | none =>
      cases hr : repo uid fr til with
      | error e =>
        rw [pct_error_eq repo st t1 uid fr til e hr hc] at hok
        exact absurd hok (by simp)
      | ok p =>
        rw [pct_miss_eq repo st t1 uid fr til p hc hr]
        have hhit := cachedFloat_set_hit st t1 t2 ttl5m (userPercentileKey uid fr til) p hfresh
        rw [pct_hit_eq repo _ t2 uid fr til _ hhit]
        simp

theorem C1_hit_short_circuit_and_single_call_witness :
    TransactionService.CalculateGGR (fun _ _ => .ok []) (fun _ => some ⟨.vSliceMaps [], 300⟩)
        0 ⟨0, 0⟩ ⟨0, 0⟩ = ⟨.ok [], (fun _ => some ⟨.vSliceMaps [], 300⟩), 0⟩ ∧
    (TransactionService.CalculateGGR (fun _ _ => .ok []) (fun _ => none) 0 ⟨0, 0⟩
        ⟨0, 0⟩).repoCalls +
      (TransactionService.CalculateGGR (fun _ _ => .ok [])
        (TransactionService.CalculateGGR (fun _ _ => .ok []) (fun _ => none) 0 ⟨0, 0⟩
          ⟨0, 0⟩).cacheAfter 200 ⟨0, 0⟩ ⟨0, 0⟩).repoCalls ≤ 1 :=
  ⟨C1_hit_short_circuit_and_single_call.1 _ _ 0 _ _ [] rfl,
   C1_hit_short_circuit_and_single_call.2.2.2.1 _ _ 0 200 ⟨0, 0⟩ ⟨0, 0⟩ [] rfl
     (by norm_num [ttl5m])⟩

/-- C9: on the cache-hit path of the list operations, a generic slice is
reconstructed element-wise: each map-coercible element is copied into its
output slot and each other element leaves the zero-valued nil map; the whole
list is returned with zero repository calls, never falling back to
recomputation. -/
theorem C9_elementwise_generic_slice :
    (∀ repo st now fr til data,
      MemoryCache.Get st now (ggrKey fr til) = (some (.vSlice data), true) →
      TransactionService.CalculateGGR repo st now fr til =
        ⟨.ok (data.map fun item =>
          match item with
          | .vMap m => some m
          | _ => none), st, 0⟩) ∧
    (∀ repo st now fr til data,
      MemoryCache.Get st now (dailyWagerKey fr til) = (some (.vSlice data), true) →
      TransactionService.CalculateDailyWagerVolume repo st now fr til =
        ⟨.ok (data.map fun item =>
          match item with
          | .vMap m => some m
          | _ => none), st, 0⟩) := by
  constructor
  · intro repo st now fr til data hget
    refine ggr_hit_eq repo st now fr til _ ?_
    unfold cachedMapsList
    rw [hget]
    rfl
  · intro repo st now fr til data hget
    refine daily_hit_eq repo st now fr til _ ?_
    unfold cachedMapsList
    rw [hget]
    rfl

theorem C9_elementwise_generic_slice_witness :
    TransactionService.CalculateGGR (fun _ _ => .ok [])
        (fun _ => some ⟨.vSlice [.vMap [("currency", .vStr "BTC")], .vInt 3], 300⟩) 0
        ⟨0, 0⟩ ⟨0, 0⟩ =
      ⟨.ok [some [("currency", .vStr "BTC")], none],
       (fun _ => some ⟨.vSlice [.vMap [("currency", .vStr "BTC")], .vInt 3], 300⟩), 0⟩ :=
  C9_elementwise_generic_slice.1 _ _ 0 ⟨0, 0⟩ ⟨0, 0⟩
    [.vMap [("currency", .vStr "BTC")], .vInt 3] rfl

/-- C6: percentile cache-hit reconstruction accepts a native float, an int, a
float-parseable string, and a single-field map wrapping a float under the key
value, each returned with zero repository calls; in particular the numeric
string 95.5 reconstructs to the rational 95.5. -/
theorem C6_percentile_hit_shapes :
    (∀ repo st now uid fr til x,
      MemoryCache.Get st now (userPercentileKey uid fr til) = (some (.vFloat x), true) →
      TransactionService.CalculateUserWagerPercentile repo st now uid fr til =
        ⟨.ok x, st, 0⟩) ∧
    (∀ repo st now uid fr til n,
      MemoryCache.Get st now (userPercentileKey uid fr til) = (some (.vInt n), true) →
      TransactionService.CalculateUserWagerPercentile repo st now uid fr til =
        ⟨.ok (n : ℚ), st, 0⟩) ∧
    (∀ repo st now uid fr til s x, parseFloat64 s = some x →
      MemoryCache.Get st now (userPercentileKey uid fr til) = (some (.vStr s), true) →
      TransactionService.CalculateUserWagerPercentile repo st now uid fr til =
        ⟨.ok x, st, 0⟩) ∧
    (∀ repo st now uid fr til x,
      MemoryCache.Get st now (userPercentileKey uid fr til) =
        (some (.vMap [("value", .vFloat x)]), true) →
      TransactionService.CalculateUserWagerPercentile repo st now uid fr til =
        ⟨.ok x, st, 0⟩) ∧
    parseFloat64 "95.5" = some (95.5 : ℚ) := by
  refine ⟨?_, ?_, ?_, ?_, ?_⟩
  · intro repo st now uid fr til x hget
    refine pct_hit_eq repo st now uid fr til x ?_
    unfold cachedFloat
    rw [hget]
    rfl
  · intro repo st now uid fr til n hget
    refine pct_hit_eq repo st now uid fr til _ ?_
    unfold cachedFloat
    rw [hget]
    rfl
  · intro repo st now uid fr til sstr x hparse hget
    refine pct_hit_eq repo st now uid fr til x ?_
    unfold cachedFloat
    rw [hget]
    show reconstructFloat (.vStr sstr) = some x
    unfold reconstructFloat
    exact hparse
  · intro repo st now uid fr til x hget
    refine pct_hit_eq repo st now uid fr til x ?_
    unfold cachedFloat
    rw [hget]
    rfl
  · have h1 : parseFloat64 "95.5" =
        some ((digitsToNat ['9', '5'] : ℚ) +
          (digitsToNat ['5'] : ℚ) / 10 ^ (['5'] : List Char).length) := rfl
    rw [h1, show digitsToNat ['9', '5'] = 95 from rfl, show digitsToNat ['5'] = 5 from rfl]
    norm_num

theorem C6_percentile_hit_shapes_witness :
    TransactionService.CalculateUserWagerPercentile (fun _ _ _ => .ok 0)
        (fun _ => some ⟨.vStr "95.5", 300⟩) 0 "u" ⟨0, 0⟩ ⟨0, 0⟩ =
      ⟨.ok (95.5 : ℚ), (fun _ => some ⟨.vStr "95.5", 300⟩), 0⟩ ∧
    TransactionService.CalculateUserWagerPercentile (fun _ _ _ => .ok 0)
        (fun _ => some ⟨.vMap [("value", .vFloat 42)], 300⟩) 0 "u" ⟨0, 0⟩ ⟨0, 0⟩ =
      ⟨.ok (42 : ℚ), (fun _ => some ⟨.vMap [("value", .vFloat 42)], 300⟩), 0⟩ ∧
    TransactionService.CalculateUserWagerPercentile (fun _ _ _ => .ok 0)
        (fun _ => some ⟨.vInt 7, 300⟩) 0 "u" ⟨0, 0⟩ ⟨0, 0⟩ =
      ⟨.ok ((7 : Int) : ℚ), (fun _ => some ⟨.vInt 7, 300⟩), 0⟩ :=
  ⟨C6_percentile_hit_shapes.2.2.1 _ _ 0 "u" ⟨0, 0⟩ ⟨0, 0⟩ "95.5" (95.5 : ℚ)
      C6_percentile_hit_shapes.2.2.2.2 rfl,
   C6_percentile_hit_shapes.2.2.2.1 _ _ 0 "u" ⟨0, 0⟩ ⟨0, 0⟩ 42 rfl,
   C6_percentile_hit_shapes.2.1 _ _ 0 "u" ⟨0, 0⟩ ⟨0, 0⟩ 7 rfl⟩

/-- C4: the key derivation is not canonical in the timezone: the bounds
1970-01-01T00:00:00Z and 1970-01-01T01:00:00+01:00 denote the same instant
(equal seconds) yet produce different ggr and percentile cache keys, because
Format(time.RFC3339) renders the caller-supplied offset. -/
theorem C4_timezone_dependent_keys :
    (GoTime.mk 0 0).sec = (GoTime.mk 0 3600).sec ∧
    ggrKey ⟨0, 0⟩ ⟨0, 0⟩ ≠ ggrKey ⟨0, 3600⟩ ⟨0, 3600⟩ ∧
    userPercentileKey "u" ⟨0, 0⟩ ⟨0, 0⟩ ≠ userPercentileKey "u" ⟨0, 3600⟩ ⟨0, 3600⟩ := by
  refine ⟨rfl, ?_, ?_⟩ <;> decide

/-- C5: the rank scan plus formula yields 100 - (r-1)/N*100 for the subject
first appearing at 1-indexed rank r among N ranked subjects; on the ranked
totals 100, 80, 50, 50, 10 the rank-1 subject scores 100 and the rank-5
subject 20; a subject with no qualifying activity gets 0 from the repository
before any ranking, and an active subject gets exactly the rank-scan value. -/
theorem C5_percentile_formula :
    (∀ (A : List (String × ℚ)) (uid : String) (r : Nat) (q : ℚ),
      1 ≤ r → A.get? (r - 1) = some (uid, q) →
      uid ∉ (A.take (r - 1)).map Prod.fst →
      percentileOfRank (findUserRank uid A) A.length =
        100 - ((r : ℚ) - 1) / (A.length : ℚ) * 100) ∧
    percentileOfRank (findUserRank "u1" rankedFive) rankedFive.length = 100 ∧
    percentileOfRank (findUserRank "u5" rankedFive) rankedFive.length = 20 ∧
    (∀ txs uid fr til,
      txs.filter (fun t => isWagerInRange fr til t && decide (t.userId = uid)) = [] →
      TransactionRepository.CalculateUserWagerPercentile txs uid fr til = 0) ∧
    (∀ txs uid fr til,
      txs.filter (fun t => isWagerInRange fr til t && decide (t.userId = uid)) ≠ [] →
      TransactionRepository.CalculateUserWagerPercentile txs uid fr til =
        percentileOfRank
          (findUserRank uid (sortByTotalDesc (wagerTotals (txs.filter (isWagerInRange fr til)))))
          (sortByTotalDesc (wagerTotals (txs.filter (isWagerInRange fr til)))).length) := by
  refine ⟨?_, ?_, ?_, ?_, ?_⟩
  · intro A uid r q hr hget hpre
    rw [findUserRank_first uid A r q hr hget hpre]
    rfl
  · rw [show findUserRank "u1" rankedFive = 1 from rfl,
      show rankedFive.length = 5 from rfl]
    norm_num [percentileOfRank]
  · rw [show findUserRank "u5" rankedFive = 5 from rfl,
      show rankedFive.length = 5 from rfl]
    norm_num [percentileOfRank]
  · intro txs uid fr til hF
    unfold TransactionRepository.CalculateUserWagerPercentile
    rw [hF]
    simp [wagerTotals]
  · intro txs uid fr til hne
    exact (repoPct_active_eq txs uid fr til hne).1

theorem C5_percentile_formula_witness :
    percentileOfRank (findUserRank "u2" rankedFive) rankedFive.length =
      100 - ((2 : ℚ) - 1) / ((rankedFive.length : Nat) : ℚ) * 100 ∧
    TransactionRepository.CalculateUserWagerPercentile [] "u" 0 10 = 0 ∧
    TransactionRepository.CalculateUserWagerPercentile
        [⟨5, "u", "Wager", 1, "BTC", 1⟩] "u" 0 10 =
      percentileOfRank
        (findUserRank "u" (sortByTotalDesc (wagerTotals
          (List.filter (isWagerInRange 0 10) [⟨5, "u", "Wager", 1, "BTC", 1⟩]))))
        (sortByTotalDesc (wagerTotals
          (List.filter (isWagerInRange 0 10) [⟨5, "u", "Wager", 1, "BTC", 1⟩]))).length :=
  ⟨C5_percentile_formula.1 rankedFive "u2" 2 80 (by norm_num) rfl (by decide),
   C5_percentile_formula.2.2.2.1 [] "u" 0 10 rfl,
   C5_percentile_formula.2.2.2.2 [⟨5, "u", "Wager", 1, "BTC", 1⟩] "u" 0 10
     (fun hnil => List.noConfusion hnil)⟩

/-- C7: the cache capability has no error channel: the remote Get collapses
backend failures and undecodable payloads into (nil, false), the remote Set
silently drops the write when marshalling fails, and for each of the three
operations an error result can only be the repository's own error, so no
cache failure ever changes an operation's error result. -/
theorem C7_no_cache_error_channel :
    (∀ codec backend key, backend.lookup key = none →
      RedisCache.Get codec backend key = (none, false)) ∧
    (∀ codec backend key s, backend.lookup key = some s → codec.unmarshal s = none →
      RedisCache.Get codec backend key = (none, false)) ∧
    (∀ codec store key v, codec.marshal v = none →
      RedisCache.Set codec store key v = store) ∧
    (∀ repo st now fr til e,
      (TransactionService.CalculateGGR repo st now fr til).result = .error e →
      repo fr til = .error e) ∧
    (∀ repo st now fr til e,
      (TransactionService.CalculateDailyWagerVolume repo st now fr til).result = .error e →
      repo fr til = .error e) ∧
    (∀ repo st now uid fr til e,
      (TransactionService.CalculateUserWagerPercentile repo st now uid fr til).result =
        .error e →
      repo uid fr til = .error e) := by
  refine ⟨?_, ?_, ?_, ?_, ?_, ?_⟩
  · intro codec backend key h
    unfold RedisCache.Get
    rw [h]
  · intro codec backend key sv h hu
    unfold RedisCache.Get
    rw [h]
    show (match codec.unmarshal sv with
      | none => ((none : Option GoVal), false)
      | some v => (some v, true)) = (none, false)
    rw [hu]
  · intro codec store key v h
    unfold RedisCache.Set
    rw [h]
  · intro repo st now fr til e h
    cases hc : cachedMapsList st now (ggrKey fr til) with
    | some data =>
      rw [ggr_hit_eq repo st now fr til data hc] at h
      exact absurd h (by simp)
    | none =>
      cases hr : repo fr til with
      | error e2 =>
        rw [ggr_error_eq repo st now fr til e2 hr hc] at h
        simp only [] at h
        rw [Except.error.injEq] at h
        rw [h]
      | ok results =>
        rw [ggr_miss_eq repo st now fr til results hc hr] at h
        exact absurd h (by simp)
  · intro repo st now fr til e h
    cases hc : cachedMapsList st now (dailyWagerKey fr til) with
    | some data =>
      rw [daily_hit_eq repo st now fr til data hc] at h
      exact absurd h (by simp)
    | none =>
      cases hr : repo fr til with
      | error e2 =>
        rw [daily_error_eq repo st now fr til e2 hr hc] at h
        simp only [] at h
        rw [Except.error.injEq] at h
        rw [h]
      | ok results =>
        rw [daily_miss_eq repo st now fr til results hc hr] at h
        exact absurd h (by simp)
  · intro repo st now uid fr til e h
    cases hc : cachedFloat st now (userPercentileKey uid fr til) with
    | some x =>
      rw [pct_hit_eq repo st now uid fr til x hc] at h
      exact absurd h (by simp)
    | none =>
      cases hr : repo uid fr til with
      | error e2 =>
        rw [pct_error_eq repo st now uid fr til e2 hr hc] at h
        simp only [] at h
        rw [Except.error.injEq] at h
        rw [h]
      | ok p =>
        rw [pct_miss_eq repo st now uid fr til p hc hr] at h
        exact absurd h (by simp)

theorem C7_no_cache_error_channel_witness :
    RedisCache.Get ⟨fun _ => none, fun _ => none⟩ ⟨fun _ => none⟩ "k" = (none, false) ∧
    RedisCache.Get ⟨fun _ => none, fun _ => none⟩ ⟨fun _ => some "garbage"⟩ "k" =
      (none, false) ∧
    RedisCache.Set ⟨fun _ => none, fun _ => none⟩ (fun _ => none) "k" (.vInt 1) =
      (fun _ => none) ∧
    ((TransactionService.CalculateGGR (fun _ _ => .error "x") (fun _ => none) 0 ⟨0, 0⟩
        ⟨0, 0⟩).result = .error "x" → (fun (_ _ : GoTime) => (.error "x" : Except String
        (List RowMap))) ⟨0, 0⟩ ⟨0, 0⟩ = .error "x") :=
  ⟨C7_no_cache_error_channel.1 _ _ "k" rfl,
   C7_no_cache_error_channel.2.1 _ _ "k" "garbage" rfl rfl,
   C7_no_cache_error_channel.2.2.1 _ _ "k" (.vInt 1) rfl,
   fun h => C7_no_cache_error_channel.2.2.2.1 _ _ 0 ⟨0, 0⟩ ⟨0, 0⟩ "x" h⟩

theorem reach_pctInv (txs : List Transaction) (st : CacheState) (h : Reach txs st) :
    PctInv txs st := by
  induction h with
  | init =>
    intro uid fr til hv1 hv2 item hitem
    exact Option.noConfusion hitem
  | ggr st now fr til res hR ih =>
    intro uid fr2 til2 hv1 hv2 item hitem
    cases hc : cachedMapsList st now (ggrKey fr til) with
    | some data =>
      rw [ggr_hit_eq (fun _ _ => res) st now fr til data hc] at hitem
      exact ih uid fr2 til2 hv1 hv2 item hitem
    | none =>
      cases hres : res with
      | error e =>
        rw [ggr_error_eq (fun _ _ => res) st now fr til e (by rw [hres]) hc] at hitem
        exact ih uid fr2 til2 hv1 hv2 item hitem
      | ok results =>
        rw [ggr_miss_eq (fun _ _ => res) st now fr til results hc (by rw [hres])] at hitem
        have hitem2 : MemoryCache.Set st now (ggrKey fr til)
            (.vSliceMaps (results.map (fun r => some r))) ttl5m
            (userPercentileKey uid fr2 til2) = some item := hitem
        unfold MemoryCache.Set at hitem2
        rw [if_neg (pctKey_ne_ggrKey uid fr2 til2 fr til)] at hitem2
        exact ih uid fr2 til2 hv1 hv2 item hitem2
  | daily st now fr til res hR ih =>
    intro uid fr2 til2 hv1 hv2 item hitem
    cases hc : cachedMapsList st now (dailyWagerKey fr til) with
    | some data =>
      rw [daily_hit_eq (fun _ _ => res) st now fr til data hc] at hitem
      exact ih uid fr2 til2 hv1 hv2 item hitem
    | none =>
      cases hres : res with
      | error e =>
        rw [daily_error_eq (fun _ _ => res) st now fr til e (by rw [hres]) hc] at hitem
        exact ih uid fr2 til2 hv1 hv2 item hitem
      | ok results =>
        rw [daily_miss_eq (fun _ _ => res) st now fr til results hc (by rw [hres])] at hitem
        have hitem2 : MemoryCache.Set st now (dailyWagerKey fr til)
            (.vSliceMaps (results.map (fun r => some r))) ttl5m
            (userPercentileKey uid fr2 til2) = some item := hitem
        unfold MemoryCache.Set at hitem2
        rw [if_neg (pctKey_ne_dailyKey uid fr2 til2 fr til)] at hitem2
        exact ih uid fr2 til2 hv1 hv2 item hitem2
  | pct st now uid0 fr0 til0 hfr0 htil0 hR ih =>
    intro uid fr2 til2 hv1 hv2 item hitem
    cases hc : cachedFloat st now (userPercentileKey uid0 fr0 til0) with
    | some x =>
      rw [pct_hit_eq (pctOracle txs) st now uid0 fr0 til0 x hc] at hitem
      exact ih uid fr2 til2 hv1 hv2 item hitem
    | none =>
      rw [pct_miss_eq (pctOracle txs) st now uid0 fr0 til0
        (TransactionRepository.CalculateUserWagerPercentile txs uid0 fr0.sec til0.sec)
        hc rfl] at hitem
      have hitem2 : MemoryCache.Set st now (userPercentileKey uid0 fr0 til0)
          (.vFloat (TransactionRepository.CalculateUserWagerPercentile txs uid0 fr0.sec
            til0.sec)) ttl5m (userPercentileKey uid fr2 til2) = some item := hitem
      unfold MemoryCache.Set at hitem2
      by_cases hkey : userPercentileKey uid fr2 til2 = userPercentileKey uid0 fr0 til0
      · rw [if_pos hkey] at hitem2
        obtain ⟨huid, hfr, htil⟩ :=
          userPercentileKey_inj uid uid0 fr2 fr0 til2 til0 hv1 hfr0 hv2 htil0 hkey
        have hi : item = ⟨.vFloat (TransactionRepository.CalculateUserWagerPercentile txs
            uid0 fr0.sec til0.sec), now + ttl5m⟩ := (Option.some.inj hitem2).symm
        rw [hi, huid, hfr, htil]
      · rw [if_neg hkey] at hitem2
        exact ih uid fr2 til2 hv1 hv2 item hitem2
  | del st k hR ih =>
    intro uid fr2 til2 hv1 hv2 item hitem
    unfold MemoryCache.Delete at hitem
    by_cases hkey : userPercentileKey uid fr2 til2 = k
    · rw [if_pos hkey] at hitem
      exact Option.noConfusion hitem
    · rw [if_neg hkey] at hitem
      exact ih uid fr2 til2 hv1 hv2 item hitem
  | sweep st now hR ih =>
    intro uid fr2 til2 hv1 hv2 item hitem
    unfold MemoryCache.cleanup at hitem
    cases hst : st (userPercentileKey uid fr2 til2) with
    | none =>
      rw [hst] at hitem
      exact Option.noConfusion hitem
    | some item0 =>
      rw [hst] at hitem
      have hitem2 : (if now > item0.expiration then none else some item0) =
          some item := hitem
      by_cases hex : now > item0.expiration
      · rw [if_pos hex] at hitem2
        exact Option.noConfusion hitem2
      · rw [if_neg hex] at hitem2
        have hi : item = item0 := (Option.some.inj hitem2).symm
        rw [hi]
        exact ih uid fr2 til2 hv1 hv2 item0 hst

/-- C8: from any reachable cache state of the deployed system, an errorless
percentile return (over any path, cache-hit reconstruction included) lies in
[0, 100] and is 0 exactly when the subject has no qualifying wager activity in
the requested range. -/
theorem C8_percentile_result_range (txs : List Transaction) (st : CacheState)
    (hreach : Reach txs st) (now : Int) (uid : String) (fr til : GoTime)
    (hfr : ValidGoTime fr) (htil : ValidGoTime til) (p : ℚ)
    (hres : (TransactionService.CalculateUserWagerPercentile (pctOracle txs) st now uid fr
      til).result = .ok p) :
    (0 ≤ p ∧ p ≤ 100) ∧
    (p = 0 ↔ txs.filter (fun t => isWagerInRange fr.sec til.sec t &&
      decide (t.userId = uid)) = []) := by
  have hinv := reach_pctInv txs st hreach
  obtain ⟨hb0, hb1, hb2⟩ := repoPct_spec txs uid fr.sec til.sec
  cases hc : cachedFloat st now (userPercentileKey uid fr til) with
  | none =>
    rw [pct_miss_eq (pctOracle txs) st now uid fr til
      (TransactionRepository.CalculateUserWagerPercentile txs uid fr.sec til.sec)
      hc rfl] at hres
    have hres2 : Except.ok (TransactionRepository.CalculateUserWagerPercentile txs uid
        fr.sec til.sec) = Except.ok p := hres
    have hp : TransactionRepository.CalculateUserWagerPercentile txs uid fr.sec til.sec =
        p := Except.ok.inj hres2
    rw [← hp]
    exact ⟨⟨hb0, hb1⟩, hb2⟩
  | some x =>
    rw [pct_hit_eq (pctOracle txs) st now uid fr til x hc] at hres
    have hres2 : Except.ok x = Except.ok p := hres
    have hxp : x = p := Except.ok.inj hres2
    unfold cachedFloat MemoryCache.Get at hc
    cases hst : st (userPercentileKey uid fr til) with
    | none =>
      rw [hst] at hc
      exact Option.noConfusion hc
    | some item =>
      rw [hst] at hc
      have hc1 : (match (if now > item.expiration then ((none : Option GoVal), false)
          else (some item.value, true)) with
        | (some v, true) => reconstructFloat v
        | _ => none) = some x := hc
      by_cases hex : now > item.expiration
      · rw [if_pos hex] at hc1
        exact Option.noConfusion hc1
      · rw [if_neg hex] at hc1
        have hc2 : reconstructFloat item.value = some x := hc1
        have hval := hinv uid fr til hfr htil item hst
        rw [hval] at hc2
        have hc3 : some (TransactionRepository.CalculateUserWagerPercentile txs uid fr.sec
            til.sec) = some x := hc2
        have hp : TransactionRepository.CalculateUserWagerPercentile txs uid fr.sec
            til.sec = x := Option.some.inj hc3
        rw [← hxp, ← hp]
        exact ⟨⟨hb0, hb1⟩, hb2⟩

theorem C8_percentile_result_range_witness :
    (0 ≤ TransactionRepository.CalculateUserWagerPercentile
        [⟨5, "u", "Wager", 1, "BTC", 1⟩] "u" 0 3600 ∧
      TransactionRepository.CalculateUserWagerPercentile
        [⟨5, "u", "Wager", 1, "BTC", 1⟩] "u" 0 3600 ≤ 100) ∧
    (TransactionRepository.CalculateUserWagerPercentile
        [⟨5, "u", "Wager", 1, "BTC", 1⟩] "u" 0 3600 = 0 ↔
      List.filter (fun t => isWagerInRange (GoTime.mk 0 0).sec (GoTime.mk 3600 0).sec t &&
        decide (t.userId = "u")) [⟨5, "u", "Wager", 1, "BTC", 1⟩] = []) :=
  C8_percentile_result_range [⟨5, "u", "Wager", 1, "BTC", 1⟩] (fun _ => none) Reach.init
    0 "u" ⟨0, 0⟩ ⟨3600, 0⟩
    (by refine ⟨by norm_num [localShifted], by norm_num [localShifted], ?_, by norm_num⟩
        exact ⟨0, by norm_num⟩)
    (by refine ⟨by norm_num [localShifted], by norm_num [localShifted], ?_, by norm_num⟩
        exact ⟨0, by norm_num⟩)
    (TransactionRepository.CalculateUserWagerPercentile
      [⟨5, "u", "Wager", 1, "BTC", 1⟩] "u" 0 3600) rfl

end AdminStats
